import Mathlib

/-!
Verification of the log parsing and minute-bucketed aggregation engine of
`streamlit_warnings_analyzer.py`.

The embedding models, from the source:
  - `parse_ts` (timestamp normalizer): `datetime.strptime` with the two exact
    formats `"%d/%m/%Y %H:%M:%S"` and `"%Y-%m-%d %H:%M:%S"` tried in order,
    falling back to `pandas.to_datetime(..., errors="coerce")`;
  - `parse_file` (log loader): `pandas.read_csv(header=None, dtype=str)`
    producing a rectangular table, the column-count-driven layout selection,
    timestamp normalization of column 0, `dropna` and the minute floor;
  - the aggregations of `main`: per-minute counts, per-minute-per-subsystem
    counts, `value_counts` ranking, Top-N restriction, cumulative sums,
    peak detection and the summary table.
-/

/-- A calendar instant, the shallow embedding of a Python `datetime.datetime`
(microseconds are always zero in this program, so they are omitted). -/
structure DateTime where
  year : Nat
  month : Nat
  day : Nat
  hour : Nat
  minute : Nat
  second : Nat
deriving DecidableEq, Repr

/-- Leap year test, as in Python's `calendar`/`datetime`. -/
def isLeap (y : Nat) : Bool := y % 4 = 0 && (y % 100 ≠ 0 || y % 400 = 0)

/-- Number of days of a month, as validated by the `datetime` constructor. -/
def daysInMonth (y m : Nat) : Nat :=
  if m = 2 then (if isLeap y then 29 else 28)
  else if m = 4 || m = 6 || m = 9 || m = 11 then 30
  else 31

/-- The range validation performed by the `datetime.datetime` constructor after
the regex of `strptime` has matched: it raises (here: `none`) unless
`1 <= year <= 9999`, `1 <= month <= 12`, `1 <= day <= daysInMonth`,
`hour <= 23`, `minute <= 59` and `second <= 59` (the regex of `%S` also admits
the leap seconds 60 and 61, which the constructor then rejects). -/
def mkDT (y m d h mi s : Nat) : Option DateTime :=
  if 1 ≤ y ∧ y ≤ 9999 ∧ 1 ≤ m ∧ m ≤ 12 ∧ 1 ≤ d ∧ d ≤ daysInMonth y m
      ∧ h ≤ 23 ∧ mi ≤ 59 ∧ s ≤ 59
  then some ⟨y, m, d, h, mi, s⟩ else none

/-- Numeric value of a digit character. -/
def dval (c : Char) : Nat := c.toNat - 48

/-- One numeric group of the `strptime` regex that admits a two-digit or a
one-digit match (e.g. `%d` is `3[01]|[12]\d|0[1-9]|[1-9]`): the two-digit
alternative is tried first, and on failure of the rest of the pattern the
regex backtracks to the one-digit alternative.  `ok2`/`ok1` encode which
two-digit/one-digit values the character class admits. -/
def group2 (ok2 ok1 : Nat → Bool) (k : Nat → List Char → Option DateTime) :
    List Char → Option DateTime
  | c1 :: c2 :: rest =>
    (if c1.isDigit && c2.isDigit && ok2 (10 * dval c1 + dval c2)
     then k (10 * dval c1 + dval c2) rest else none)
    <|>
    (if c1.isDigit && ok1 (dval c1) then k (dval c1) (c2 :: rest) else none)
  | c1 :: [] => if c1.isDigit && ok1 (dval c1) then k (dval c1) [] else none
  | [] => none

/-- The `%Y` group of the `strptime` regex: exactly four digits. -/
def group4 (k : Nat → List Char → Option DateTime) : List Char → Option DateTime
  | c1 :: c2 :: c3 :: c4 :: rest =>
    if c1.isDigit && c2.isDigit && c3.isDigit && c4.isDigit
    then k (1000 * dval c1 + 100 * dval c2 + 10 * dval c3 + dval c4) rest
    else none
  | _ => none

/-- A literal character of the format string. -/
def lit (c : Char) (k : List Char → Option DateTime) : List Char → Option DateTime
  | c' :: rest => if c' = c then k rest else none
  | [] => none

/-- A whitespace run: `strptime` compiles whitespace in the format to `\s+`.
Since the following group always expects a digit, consuming the whole run
greedily is equivalent to the regex behaviour. -/
def skipWs (k : List Char → Option DateTime) : List Char → Option DateTime
  | c :: rest =>
    if c.isWhitespace then k (rest.dropWhile Char.isWhitespace) else none
  | [] => none

/-- `%d` two-digit class: `3[01]|[12]\d|0[1-9]`, i.e. the values 1..31. -/
def dOk2 (v : Nat) : Bool := decide (1 ≤ v ∧ v ≤ 31)

/-- `%d` one-digit class: `[1-9]`. -/
def dOk1 (v : Nat) : Bool := decide (1 ≤ v)

/-- `%m` two-digit class: `1[0-2]|0[1-9]`, i.e. the values 1..12. -/
def mOk2 (v : Nat) : Bool := decide (1 ≤ v ∧ v ≤ 12)

/-- `%m` one-digit class: `[1-9]`. -/
def mOk1 (v : Nat) : Bool := decide (1 ≤ v)

/-- `%H` two-digit class: `2[0-3]|[0-1]\d`, i.e. the values 0..23. -/
def hOk2 (v : Nat) : Bool := decide (v ≤ 23)

/-- `%H` one-digit class: `\d`. -/
def hOk1 (_ : Nat) : Bool := true

/-- `%M` two-digit class: `[0-5]\d`, i.e. the values 0..59. -/
def miOk2 (v : Nat) : Bool := decide (v ≤ 59)

/-- `%M` one-digit class: `\d`. -/
def miOk1 (_ : Nat) : Bool := true

/-- `%S` two-digit class: `6[0-1]|[0-5]\d`, i.e. the values 0..61. -/
def sOk2 (v : Nat) : Bool := decide (v ≤ 61)

/-- `%S` one-digit class: `\d`. -/
def sOk1 (_ : Nat) : Bool := true

/-- The common `%H:%M:%S` tail of both formats, ending with the
whole-string-consumed check of `strptime` ("unconverted data remains")
and the constructor validation. -/
def timePart (y m d : Nat) : List Char → Option DateTime :=
  group2 hOk2 hOk1 (fun h =>
    lit ':' (group2 miOk2 miOk1 (fun mi =>
      lit ':' (group2 sOk2 sOk1 (fun s rest =>
        if rest = [] then mkDT y m d h mi s else none)))))

/-- `datetime.strptime(s, "%d/%m/%Y %H:%M:%S")`: the first format tried by
`parse_ts`, interpreting the first numeric group as the day. -/
def matchDMY : List Char → Option DateTime :=
  group2 dOk2 dOk1 (fun d =>
    lit '/' (group2 mOk2 mOk1 (fun m =>
      lit '/' (group4 (fun y => skipWs (timePart y m d))))))

/-- `datetime.strptime(s, "%Y-%m-%d %H:%M:%S")`: the second format tried by
`parse_ts`, year first. -/
def matchYMD : List Char → Option DateTime :=
  group4 (fun y =>
    lit '-' (group2 mOk2 mOk1 (fun m =>
      lit '-' (group2 dOk2 dOk1 (fun d => skipWs (timePart y m d))))))

/-- ISO date without a time component, parsed by the permissive fallback. -/
def matchYMDdate : List Char → Option DateTime :=
  group4 (fun y =>
    lit '-' (group2 mOk2 mOk1 (fun m =>
      lit '-' (group2 dOk2 dOk1 (fun d rest =>
        if rest = [] then mkDT y m d 0 0 0 else none)))))

/-- Model of the permissive fallback `pandas.to_datetime(s, errors="coerce")`:
it recognizes ISO-shaped inputs (`YYYY-MM-DD HH:MM:SS` and `YYYY-MM-DD`) and
maps everything else to the missing-value sentinel `NaT` (here `none`); the
full dateutil grammar is not modelled, which is sound for the claims below
since they only exercise the sentinel behaviour of the fallback and inputs in
the exact formats. -/
def to_datetime_coerce (cs : List Char) : Option DateTime :=
  match matchYMD cs with
  | some dt => some dt
  | none => matchYMDdate cs

/-- `parse_ts` of the source: try `"%d/%m/%Y %H:%M:%S"`, then
`"%Y-%m-%d %H:%M:%S"`, each failure being caught, then fall back to
`pd.to_datetime(s, errors="coerce")`.  Failure is the sentinel `none` (`NaT`),
never an exception. -/
def parse_ts (s : String) : Option DateTime :=
  match matchDMY s.data with
  | some dt => some dt
  | none =>
    match matchYMD s.data with
    | some dt => some dt
    | none => to_datetime_coerce s.data

/-- Chronological key of an instant: a mixed-radix encoding whose radices bound
the calendar-valid field ranges (month < 13, day < 32, hour < 24,
minute, second < 60), so that on calendar-valid instants — the only ones the
program constructs — comparison of keys agrees with Python's lexicographic
`datetime` comparison. -/
def DateTime.key (t : DateTime) : Nat :=
  ((((t.year * 13 + t.month) * 32 + t.day) * 24 + t.hour) * 60 + t.minute) * 60
    + t.second

/-- Boolean embedding of `datetime` comparison `a <= b`. -/
def dtLeb (a b : DateTime) : Bool := decide (a.key ≤ b.key)

/-- `Timestamp.dt.floor("min")`: zero the seconds (and sub-seconds). -/
def floorMinute (t : DateTime) : DateTime := { t with second := 0 }

/-- A cell of the raw table: `none` is pandas `NaN` (an empty field, or the
padding of a row shorter than the table width). -/
def cellOf (f : String) : Option String := if f = "" then none else some f

/-- Pad a tokenized row with `NaN` cells to the table width, as the
`read_csv` tokenizer does for rows shorter than the widest row. -/
def padCells (w : Nat) (r : List String) : List (Option String) :=
  r.map cellOf ++ List.replicate (w - r.length) none

/-- The rectangular table produced by
`pd.read_csv(io.BytesIO(file_bytes), header=None, dtype=str)`. -/
structure RawFrame where
  width : Nat
  rows : List (List (Option String))
deriving DecidableEq, Repr

/-- Model of `pd.read_csv(..., header=None, dtype=str)` on the tokenized,
non-blank lines of the file (blank lines are skipped by the tokenizer, so
every input row has at least one field).  The column count is fixed by the
first row; a later row with more fields raises `ParserError` (here: `none`),
and shorter rows are padded with `NaN`, so the resulting width is the maximum
field count across the parsed table. -/
def read_csv (rows : List (List String)) : Option RawFrame :=
  match rows with
  | [] => none
  | r0 :: _ =>
    if 1 ≤ r0.length ∧ rows.all (fun r => r.length ≤ r0.length)
    then some ⟨r0.length, rows.map (padCells r0.length)⟩
    else none

/-- The 13 Full-layout column names assigned when the table has >= 13 columns. -/
def fullCols : List String :=
  ["Timestamp", "Code", "Status", "Subsystem", "Category",
   "Detail1", "Message", "Flag1", "Detail2",
   "Value1", "Value2", "Value3", "Flag2"]

/-- The 7 Basic-layout column names, truncated to the table width when < 13. -/
def basicCols : List String :=
  ["Timestamp", "Code", "Status", "Subsystem", "Category", "Detail1", "Message"]

/-- `parse_ts` as applied by `df["Timestamp"].apply(parse_ts)`: a `NaN` cell
makes both `strptime` calls raise (caught by the bare `except`), and
`pd.to_datetime(nan, errors="coerce")` yields `NaT`. -/
def parse_ts_cell : Option String → Option DateTime
  | none => none
  | some s => parse_ts s

/-- One row of a loaded Dataset: the normalized `Timestamp`, the derived
`Minute` key, and the named raw cells of the selected layout (cell 0 is the
raw Timestamp field). -/
structure Record where
  timestamp : DateTime
  minute : DateTime
  cells : List (Option String)
deriving DecidableEq, Repr

/-- A loaded (or filtered) Dataset: the named columns of the selected layout
and the records in original row order. -/
structure Dataset where
  columns : List String
  rows : List Record
deriving DecidableEq, Repr

/-- Build the Log Record of one raw row: truncate to the `keep` named columns
(`df.iloc[:, :keep]`), normalize the Timestamp cell, drop the row if the
result is `NaT` (`df.dropna(subset=["Timestamp"])`), and floor to the minute. -/
def mkRecord (keep : Nat) (r : List (Option String)) : Option Record :=
  match parse_ts_cell ((r.take keep).headD none) with
  | none => none
  | some ts => some ⟨ts, floorMinute ts, r.take keep⟩

/-- `parse_file` of the source: raw parse, layout selection from the measured
column count (Full layout if >= 13, truncating to the first 13 columns; else
Basic truncated to `min(count, 7)` names), timestamp normalization, silent
drop of unparseable rows, minute floor. -/
def parse_file (rows : List (List String)) : Option Dataset :=
  match read_csv rows with
  | none => none
  | some rf =>
    if 13 ≤ rf.width then
      some ⟨fullCols, rf.rows.filterMap (mkRecord 13)⟩
    else
      some ⟨basicCols.take (min rf.width 7),
            rf.rows.filterMap (mkRecord (min rf.width 7))⟩

/-- The `Subsystem` cell of a record: column index 3 of both layouts
(meaningful whenever the layout carries at least 4 names). -/
def Record.sub (r : Record) : Option String := r.cells.getD 3 none

/-- Keep the first occurrence of every element, in order of first occurrence
(the key order of a pandas hashtable-based groupby before sorting). -/
def firstOccsAux {α : Type} [DecidableEq α] (seen : List α) : List α → List α
  | [] => []
  | a :: t => if a ∈ seen then firstOccsAux seen t
              else a :: firstOccsAux (a :: seen) t

/-- First occurrences of a list's elements. -/
def firstOccs {α : Type} [DecidableEq α] (l : List α) : List α :=
  firstOccsAux [] l

/-- Insert an element into a list, before the first element `y` with
`le x y`; used with a total `le` this is one step of a stable insertion
sort. -/
def insertLe {α : Type} (le : α → α → Bool) (x : α) : List α → List α
  | [] => [x]
  | y :: t => if le x y then x :: y :: t else y :: insertLe le x t

/-- Stable insertion sort: elements that compare equal keep their original
relative order. -/
def isort {α : Type} (le : α → α → Bool) : List α → List α
  | [] => []
  | x :: t => insertLe le x (isort le t)

/-- Lexicographic strict comparison of strings by character code point —
exactly Python's `str` comparison, which orders the pandas `groupby` and
`unstack` indices. -/
def strLtb : List Char → List Char → Bool
  | [], [] => false
  | [], _ :: _ => true
  | _ :: _, [] => false
  | a :: as, b :: bs =>
    if a.toNat < b.toNat then true
    else if a.toNat = b.toNat then strLtb as bs
    else false

/-- String comparison for the sorted column/index order of pandas `groupby`
and `unstack`: `a <= b` iff not `b < a`. -/
def strLeb (a b : String) : Bool := ! strLtb b.data a.data

/-- `dfq.groupby("Minute").size()`: one entry per distinct Minute present,
keys in ascending order, each with its record count. -/
def count_per_minute (ds : Dataset) : List (DateTime × Nat) :=
  (isort dtLeb (firstOccs (ds.rows.map (·.minute)))).map
    (fun m => (m, ds.rows.countP (fun r => decide (r.minute = m))))

/-- The subsystem column labels of
`dfq.groupby(["Minute", "Subsystem"]).size().unstack(fill_value=0)`:
the distinct non-`NaN` Subsystem values, in ascending order. -/
def subTable (ds : Dataset) : List String :=
  isort strLeb (firstOccs (ds.rows.filterMap (·.sub)))

/-- The minute index of the per-minute-per-subsystem table: minutes of the
rows that carry a (non-`NaN`) Subsystem — `groupby` drops `NaN` keys — in
ascending order. -/
def minuteIdx (ds : Dataset) : List DateTime :=
  isort dtLeb (firstOccs ((ds.rows.filter (fun r => r.sub.isSome)).map (·.minute)))

/-- The dense per-minute-per-subsystem table `spm`: one row per minute of
`minuteIdx`, one column per subsystem of `subTable`, missing combinations
filled with 0. -/
def spmOf (ds : Dataset) : List (DateTime × List Nat) :=
  (minuteIdx ds).map (fun m =>
    (m, (subTable ds).map (fun s =>
      ds.rows.countP (fun r => decide (r.minute = m ∧ r.sub = some s)))))

/-- The unsorted per-subsystem counts underlying
`dfq["Subsystem"].value_counts()`: keys in first-occurrence order (`NaN`
excluded), each with its record count. -/
def basePairs (ds : Dataset) : List (String × Nat) :=
  (firstOccs (ds.rows.filterMap (·.sub))).map
    (fun s => (s, ds.rows.countP (fun r => decide (r.sub = some s))))

/-- Descending-by-count comparison; ties compare equal, so the stable sort
keeps their first-occurrence order. -/
def leCount (a b : String × Nat) : Bool := decide (b.2 ≤ a.2)

/-- `dfq["Subsystem"].value_counts()`: per-subsystem totals, descending by
count, ties in first-occurrence order. -/
def value_counts (ds : Dataset) : List (String × Nat) :=
  isort leCount (basePairs ds)

/-- `subsystem_total.head(int(topN)).index`: the Top-N subsystem names. -/
def topList (ds : Dataset) (n : Nat) : List String :=
  ((value_counts ds).take n).map Prod.fst

/-- `dfq[dfq["Subsystem"].isin(top_list)]`: the Top-N-restricted dataset
(`isin` is false on `NaN`). -/
def topData (ds : Dataset) (n : Nat) : Dataset :=
  ⟨ds.columns, ds.rows.filter (fun r =>
    match r.sub with
    | some s => decide (s ∈ topList ds n)
    | none => false)⟩

/-- Column-wise running sums of a per-minute table, with an explicit
accumulator row. -/
def cumsumFrom (acc : List Nat) : List (DateTime × List Nat) → List (DateTime × List Nat)
  | [] => []
  | (m, v) :: rest =>
    (m, List.zipWith (· + ·) acc v) :: cumsumFrom (List.zipWith (· + ·) acc v) rest

/-- `top_per_minute.cumsum()`: the cumulative trend table over the
Top-N-restricted per-minute-per-subsystem table. -/
def cumulativeOf (ds : Dataset) (n : Nat) : List (DateTime × List Nat) :=
  cumsumFrom (List.replicate (subTable (topData ds n)).length 0)
    (spmOf (topData ds n))

/-- `mask = (df["Timestamp"] >= sel_start) & (df["Timestamp"] <= sel_end);
df.loc[mask]`: the inclusive time-range filter, preserving row order. -/
def timeFilter (ds : Dataset) (a b : DateTime) : Dataset :=
  ⟨ds.columns,
   ds.rows.filter (fun r => dtLeb a r.timestamp && dtLeb r.timestamp b)⟩

/-- Running minimum of record timestamps. -/
def minTsAux (acc : DateTime) : List Record → DateTime
  | [] => acc
  | r :: rs => minTsAux (if dtLeb r.timestamp acc then r.timestamp else acc) rs

/-- The minimum Timestamp of a Dataset (arbitrary on an empty one). -/
def minTs (ds : Dataset) : DateTime :=
  match ds.rows with
  | [] => ⟨0, 0, 0, 0, 0, 0⟩
  | r :: rs => minTsAux r.timestamp rs

/-- Running maximum of record timestamps. -/
def maxTsAux (acc : DateTime) : List Record → DateTime
  | [] => acc
  | r :: rs => maxTsAux (if dtLeb acc r.timestamp then r.timestamp else acc) rs

/-- The maximum Timestamp of a Dataset (arbitrary on an empty one). -/
def maxTs (ds : Dataset) : DateTime :=
  match ds.rows with
  | [] => ⟨0, 0, 0, 0, 0, 0⟩
  | r :: rs => maxTsAux r.timestamp rs

/-- `subsystem_total[s]`: total record count of subsystem `s`. -/
def totalOf (ds : Dataset) (s : String) : Nat :=
  ds.rows.countP (fun r => decide (r.sub = some s))

/-- The sum of subsystem `s`'s column in the dense per-minute-per-subsystem
table, read off the table itself. -/
def sumColumn (ds : Dataset) (s : String) : Nat :=
  ((spmOf ds).map (fun row => row.2.getD ((subTable ds).indexOf s) 0)).sum

/-- `spm.mean(axis=0)[s]`: arithmetic mean of `s`'s column over all minutes
of the dense table (minutes where `s` has count 0 included). -/
def meanOf (ds : Dataset) (s : String) : ℚ :=
  (sumColumn ds s : ℚ) / ((minuteIdx ds).length : ℚ)

/-- `col.idxmax()` paired with `col.max()`: the first entry attaining the
maximal count. -/
def argmaxFirst : List (DateTime × Nat) → Option (DateTime × Nat)
  | [] => none
  | p :: t => some (t.foldl (fun best q => if q.2 > best.2 then q else best) p)

/-- The peak (time, value) of subsystem `s`, per the summary-table loop:
`(col.idxmax(), col.max())` when the column sum is positive, else
`(NaT, 0)`. -/
def peakOf (ds : Dataset) (s : String) : Option DateTime × Nat :=
  let col := (minuteIdx ds).map (fun m =>
    (m, ds.rows.countP (fun r => decide (r.minute = m ∧ r.sub = some s))))
  if 0 < (col.map (·.2)).sum then
    match argmaxFirst col with
    | some p => (some p.1, p.2)
    | none => (none, 0)
  else (none, 0)

/-- The summary table: one row per subsystem with
{total, mean per minute, peak time, peak value}.  The pandas `DataFrame`
constructor aligns the series on the sorted union of their indices, which is
the `subTable` order. -/
def summaryOf (ds : Dataset) : List (String × Nat × ℚ × (Option DateTime × Nat)) :=
  (subTable ds).map (fun s => (s, totalOf ds s, meanOf ds s, peakOf ds s))

/-- Zero-padded two-digit decimal rendering. -/
def pad2 (n : Nat) : List Char :=
  [Nat.digitChar (n / 10 % 10), Nat.digitChar (n % 10)]

/-- Zero-padded four-digit decimal rendering. -/
def pad4 (n : Nat) : List Char :=
  [Nat.digitChar (n / 1000 % 10), Nat.digitChar (n / 100 % 10),
   Nat.digitChar (n / 10 % 10), Nat.digitChar (n % 10)]

/-- The canonical "DD/MM/YYYY HH:MM:SS" rendering of a day-first instant. -/
def renderDMY (d m y h mi s : Nat) : String :=
  ⟨pad2 d ++ '/' :: (pad2 m ++ '/' :: (pad4 y ++ ' ' ::
    (pad2 h ++ ':' :: (pad2 mi ++ ':' :: pad2 s))))⟩

/-- A ragged file whose first row has 3 fields and second row 1 field. -/
def c2rows : List (List String) :=
  [["2024-01-01 10:00:00", "b", "c"], ["2024-01-02 11:00:00"]]

/-- The raw Timestamp cell (column 0) of a tokenized row in a table of
width `w`. -/
def tsCellOf (w : Nat) (raw : List String) : Option String :=
  (padCells w raw).headD none

/-- The three-row example input of the specification. -/
def c9rows : List (List String) :=
  [["2024-01-01 10:00:00", "E1", "OK", "SubA", "Cat", "", "msg1"],
   ["2024-01-01 10:00:30", "E2", "OK", "SubA", "Cat", "", "msg2"],
   ["2024-01-01 10:01:00", "E3", "OK", "SubB", "Cat", "", "msg3"]]

/-- The Dataset loaded from the example input. -/
def c9ds : Dataset := (parse_file c9rows).getD ⟨[], []⟩

/-- The minute bucket 2024-01-01 10:00. -/
def c9m0 : DateTime := ⟨2024, 1, 1, 10, 0, 0⟩

/-- The minute bucket 2024-01-01 10:01. -/
def c9m1 : DateTime := ⟨2024, 1, 1, 10, 1, 0⟩

/-- The raw frame of the ragged two-row file. -/
def c2rf : RawFrame := (read_csv c2rows).getD ⟨0, []⟩

/-- The Dataset loaded from the ragged two-row file. -/
def c2ds : Dataset := (parse_file c2rows).getD ⟨[], []⟩

/-- A one-row file with 14 fields, selecting the Full layout. -/
def c3rows : List (List String) :=
  [["01/02/2024 10:00:00", "a", "b", "S1", "c", "d", "e", "f", "g", "h",
    "i", "j", "k", "extra"]]

/-- The raw frame of the 14-field file. -/
def c3rf : RawFrame := (read_csv c3rows).getD ⟨0, []⟩

/-- The Dataset loaded from the 14-field file. -/
def c3ds : Dataset := (parse_file c3rows).getD ⟨[], []⟩

/-- A two-row file whose second row's Timestamp fails every parse strategy. -/
def c4rows : List (List String) :=
  [["2024-01-01 10:00:00", "x"], ["notadate", "y"]]

/-- The raw frame of the partially-unparseable file. -/
def c4rf : RawFrame := (read_csv c4rows).getD ⟨0, []⟩

/-- The Dataset loaded from the partially-unparseable file. -/
def c4ds : Dataset := (parse_file c4rows).getD ⟨[], []⟩

example : parse_ts "03/04/2024 10:00:00" = some ⟨2024, 4, 3, 10, 0, 0⟩ := by decide

example : parse_ts "31/12/2023 23:59:59" = some ⟨2023, 12, 31, 23, 59, 59⟩ := by decide

example : parse_ts "2024-01-01 10:00:30" = some ⟨2024, 1, 1, 10, 0, 30⟩ := by decide

example : parse_ts "not a date" = none := by decide

example : parse_ts "31/02/2024 10:00:00" = none := by decide

example : isort (fun a b => decide (a ≤ b)) [3, 1, 2] = [1, 2, 3] := by decide

example : firstOccs [1, 2, 1, 3, 2] = [1, 2, 3] := by decide

lemma isDigit_digitChar {a : Nat} (h : a < 10) :
    (Nat.digitChar a).isDigit = true := by
  interval_cases a <;> decide

lemma dval_digitChar {a : Nat} (h : a < 10) : dval (Nat.digitChar a) = a := by
  interval_cases a <;> decide

lemma not_ws_digitChar {a : Nat} (h : a < 10) :
    (Nat.digitChar a).isWhitespace = false := by
  interval_cases a <;> decide

lemma group2_render (ok2 ok1 : Nat → Bool) (k : Nat → List Char → Option DateTime)
    (n : Nat) (rest : List Char) (v : DateTime)
    (hn : n < 100) (h2 : ok2 n = true) (hk : k n rest = some v) :
    group2 ok2 ok1 k (pad2 n ++ rest) = some v := by
  have h10 : n / 10 < 10 := by omega
  have h1 : n % 10 < 10 := Nat.mod_lt _ (by omega)
  have e : n / 10 % 10 = n / 10 := Nat.mod_eq_of_lt h10
  have eval : 10 * (n / 10) + n % 10 = n := by omega
  simp only [pad2, e, List.cons_append, List.nil_append, group2,
    isDigit_digitChar h10, isDigit_digitChar h1,
    dval_digitChar h10, dval_digitChar h1, eval, h2, Bool.and_self,
    Bool.true_and, if_true, hk, Option.some_orElse]

lemma group4_render (k : Nat → List Char → Option DateTime)
    (n : Nat) (rest : List Char) (v : DateTime)
    (hn : n < 10000) (hk : k n rest = some v) :
    group4 k (pad4 n ++ rest) = some v := by
  have ha : n / 1000 < 10 := by omega
  have hb : n / 100 % 10 < 10 := Nat.mod_lt _ (by omega)
  have hc : n / 10 % 10 < 10 := Nat.mod_lt _ (by omega)
  have hd : n % 10 < 10 := Nat.mod_lt _ (by omega)
  have e : n / 1000 % 10 = n / 1000 := Nat.mod_eq_of_lt ha
  have eval : 1000 * (n / 1000) + 100 * (n / 100 % 10) + 10 * (n / 10 % 10)
      + n % 10 = n := by omega
  simp only [pad4, e, List.cons_append, List.nil_append, group4,
    isDigit_digitChar ha, isDigit_digitChar hb, isDigit_digitChar hc,
    isDigit_digitChar hd, dval_digitChar ha, dval_digitChar hb,
    dval_digitChar hc, dval_digitChar hd, eval, Bool.and_self, if_true, hk]

lemma lit_cons (c : Char) (k : List Char → Option DateTime) (rest : List Char) :
    lit c k (c :: rest) = k rest := by
  simp [lit]

lemma skipWs_sp {k : List Char → Option DateTime} {c : Char} {rest : List Char}
    {v : DateTime} (hc : c.isWhitespace = false) (hk : k (c :: rest) = some v) :
    skipWs k (' ' :: c :: rest) = some v := by
  simp [skipWs, List.dropWhile_cons, hc, hk]

lemma mkDT_pos {y m d h mi s : Nat} (h1 : 1 ≤ y) (h2 : y ≤ 9999) (h3 : 1 ≤ m)
    (h4 : m ≤ 12) (h5 : 1 ≤ d) (h6 : d ≤ daysInMonth y m) (h7 : h ≤ 23)
    (h8 : mi ≤ 59) (h9 : s ≤ 59) :
    mkDT y m d h mi s = some ⟨y, m, d, h, mi, s⟩ := by
  unfold mkDT
  rw [if_pos ⟨h1, h2, h3, h4, h5, h6, h7, h8, h9⟩]

lemma daysInMonth_le_31 (y m : Nat) : daysInMonth y m ≤ 31 := by
  unfold daysInMonth
  split_ifs <;> omega

lemma matchDMY_render {d m y h mi s : Nat} (h3 : 1 ≤ m) (h4 : m ≤ 12)
    (h5 : 1 ≤ d) (h6 : d ≤ daysInMonth y m) (h1 : 1 ≤ y) (h2 : y ≤ 9999)
    (h7 : h ≤ 23) (h8 : mi ≤ 59) (h9 : s ≤ 59) :
    matchDMY (renderDMY d m y h mi s).data = some ⟨y, m, d, h, mi, s⟩ := by
  set dt : DateTime := ⟨y, m, d, h, mi, s⟩ with hdt
  have t1 : group2 sOk2 sOk1
      (fun s' rest => if rest = [] then mkDT y m d h mi s' else none)
      (pad2 s) = some dt := by
    have t0 : (if ([] : List Char) = [] then mkDT y m d h mi s else none)
        = some dt := by
      rw [if_pos rfl, mkDT_pos h1 h2 h3 h4 h5 h6 h7 h8 h9]
    have := group2_render sOk2 sOk1
      (fun s' rest => if rest = [] then mkDT y m d h mi s' else none) s [] dt
      (by omega)
      (show sOk2 s = true by simp only [sOk2, decide_eq_true_eq]; omega) t0
    simpa using this
  have t3 : group2 miOk2 miOk1
      (fun mi' => lit ':' (group2 sOk2 sOk1
        (fun s' rest => if rest = [] then mkDT y m d h mi' s' else none)))
      (pad2 mi ++ ':' :: pad2 s) = some dt := by
    refine group2_render miOk2 miOk1 _ mi (':' :: pad2 s) dt (by omega)
      (show miOk2 mi = true by simp only [miOk2, decide_eq_true_eq]; omega) ?_
    rw [lit_cons]
    exact t1
  have t5 : timePart y m d (pad2 h ++ ':' :: (pad2 mi ++ ':' :: pad2 s))
      = some dt := by
    refine group2_render hOk2 hOk1 _ h (':' :: (pad2 mi ++ ':' :: pad2 s)) dt
      (by omega)
      (show hOk2 h = true by simp only [hOk2, decide_eq_true_eq]; omega) ?_
    rw [lit_cons]
    exact t3
  have t6 : skipWs (timePart y m d)
      (' ' :: (pad2 h ++ ':' :: (pad2 mi ++ ':' :: pad2 s))) = some dt := by
    have hws : (Nat.digitChar (h / 10 % 10)).isWhitespace = false :=
      not_ws_digitChar (Nat.mod_lt _ (by omega))
    simp only [pad2, List.cons_append, List.nil_append] at t5 ⊢
    exact skipWs_sp hws t5
  have t7 : group4 (fun y' => skipWs (timePart y' m d))
      (pad4 y ++ ' ' :: (pad2 h ++ ':' :: (pad2 mi ++ ':' :: pad2 s)))
      = some dt :=
    group4_render (fun y' => skipWs (timePart y' m d)) y
      (' ' :: (pad2 h ++ ':' :: (pad2 mi ++ ':' :: pad2 s))) dt (by omega) t6
  have t9 : group2 mOk2 mOk1
      (fun m' => lit '/' (group4 (fun y' => skipWs (timePart y' m' d))))
      (pad2 m ++ '/' :: (pad4 y ++ ' ' ::
        (pad2 h ++ ':' :: (pad2 mi ++ ':' :: pad2 s)))) = some dt := by
    refine group2_render mOk2 mOk1 _ m ('/' :: (pad4 y ++ ' ' ::
      (pad2 h ++ ':' :: (pad2 mi ++ ':' :: pad2 s)))) dt (by omega)
      (show mOk2 m = true by simp only [mOk2, decide_eq_true_eq]; omega) ?_
    rw [lit_cons]
    exact t7
  show group2 dOk2 dOk1
      (fun d' => lit '/' (group2 mOk2 mOk1
        (fun m' => lit '/' (group4 (fun y' => skipWs (timePart y' m' d'))))))
      (pad2 d ++ '/' :: (pad2 m ++ '/' :: (pad4 y ++ ' ' ::
        (pad2 h ++ ':' :: (pad2 mi ++ ':' :: pad2 s))))) = some dt
  refine group2_render dOk2 dOk1 _ d ('/' :: (pad2 m ++ '/' :: (pad4 y ++ ' ' ::
      (pad2 h ++ ':' :: (pad2 mi ++ ':' :: pad2 s))))) dt
    (show d < 100 by have := daysInMonth_le_31 y m; omega)
    (show dOk2 d = true by
      simp only [dOk2, decide_eq_true_eq]
      have := daysInMonth_le_31 y m
      omega) ?_
  rw [lit_cons]
  exact t9

/-- C1: every string exactly matching the "DD/MM/YYYY HH:MM:SS" syntax is
interpreted day-first by the Timestamp Normalizer: the first group is the day
and the second the month whenever the day-first reading is calendar-valid
(which includes every string whose month-first reading is also valid); in
particular "03/04/2024 10:00:00" normalizes to April 3, 2024 10:00:00 and
"31/12/2023 23:59:59" normalizes to December 31, 2023 23:59:59 rather than
failing. -/
theorem C1_day_first (d m y h mi s : Nat) (hm1 : 1 ≤ m) (hm2 : m ≤ 12)
    (hd1 : 1 ≤ d) (hd2 : d ≤ daysInMonth y m) (hy1 : 1 ≤ y) (hy2 : y ≤ 9999)
    (hh : h ≤ 23) (hmi : mi ≤ 59) (hs : s ≤ 59) :
    parse_ts (renderDMY d m y h mi s) = some ⟨y, m, d, h, mi, s⟩ ∧
    parse_ts "03/04/2024 10:00:00" = some ⟨2024, 4, 3, 10, 0, 0⟩ ∧
    parse_ts "31/12/2023 23:59:59" = some ⟨2023, 12, 31, 23, 59, 59⟩ := by
  refine ⟨?_, by decide, by decide⟩
  have hm := matchDMY_render hm1 hm2 hd1 hd2 hy1 hy2 hh hmi hs
  simp only [parse_ts, hm]

/-- Witness for C1 at the ambiguous input "03/04/2024 10:00:00"
(day = 3, month = 4). -/
theorem C1_day_first_witness :
    renderDMY 3 4 2024 10 0 0 = "03/04/2024 10:00:00" ∧
    (parse_ts (renderDMY 3 4 2024 10 0 0) = some ⟨2024, 4, 3, 10, 0, 0⟩ ∧
     parse_ts "03/04/2024 10:00:00" = some ⟨2024, 4, 3, 10, 0, 0⟩ ∧
     parse_ts "31/12/2023 23:59:59" = some ⟨2023, 12, 31, 23, 59, 59⟩) :=
  ⟨by decide,
   C1_day_first 3 4 2024 10 0 0 (by decide) (by decide) (by decide) (by decide)
     (by decide) (by decide) (by decide) (by decide) (by decide)⟩

lemma firstOccsAux_mem {α : Type} [DecidableEq α] (seen l : List α) (x : α) :
    x ∈ firstOccsAux seen l ↔ x ∈ l ∧ x ∉ seen := by
  induction l generalizing seen with
  | nil => simp [firstOccsAux]
  | cons a t ih =>
    by_cases ha : a ∈ seen
    · simp only [firstOccsAux, if_pos ha, ih, List.mem_cons]
      constructor
      · rintro ⟨hxt, hxs⟩
        exact ⟨Or.inr hxt, hxs⟩
      · rintro ⟨hx | hxt, hxs⟩
        · exact absurd (hx ▸ ha) hxs
        · exact ⟨hxt, hxs⟩
    · simp only [firstOccsAux, if_neg ha, List.mem_cons, ih]
      constructor
      · rintro (rfl | ⟨hxt, hxs⟩)
        · exact ⟨Or.inl rfl, ha⟩
        · exact ⟨Or.inr hxt, fun hs => hxs (Or.inr hs)⟩
      · rintro ⟨rfl | hxt, hxs⟩
        · exact Or.inl rfl
        · by_cases hxa : x = a
          · exact Or.inl hxa
          · exact Or.inr ⟨hxt, fun h => h.elim hxa hxs⟩

lemma firstOccs_mem {α : Type} [DecidableEq α] (l : List α) (x : α) :
    x ∈ firstOccs l ↔ x ∈ l := by
  simp [firstOccs, firstOccsAux_mem]

lemma firstOccsAux_nodup {α : Type} [DecidableEq α] (seen l : List α) :
    (firstOccsAux seen l).Nodup := by
  induction l generalizing seen with
  | nil => simp [firstOccsAux]
  | cons a t ih =>
    by_cases ha : a ∈ seen
    · simpa [firstOccsAux, ha] using ih seen
    · simp only [firstOccsAux, if_neg ha, List.nodup_cons]
      refine ⟨fun hmem => ?_, ih (a :: seen)⟩
      rw [firstOccsAux_mem] at hmem
      exact hmem.2 (List.mem_cons_self a seen)

lemma firstOccs_nodup {α : Type} [DecidableEq α] (l : List α) :
    (firstOccs l).Nodup := firstOccsAux_nodup [] l

lemma insertLe_perm {α : Type} (le : α → α → Bool) (x : α) (l : List α) :
    List.Perm (insertLe le x l) (x :: l) := by
  induction l with
  | nil => exact List.Perm.refl _
  | cons y t ih =>
    simp only [insertLe]
    by_cases h : le x y
    · simp [h]
    · simp only [if_neg h]
      exact (List.Perm.cons y ih).trans (List.Perm.swap x y t)

lemma isort_perm {α : Type} (le : α → α → Bool) (l : List α) :
    List.Perm (isort le l) l := by
  induction l with
  | nil => exact List.Perm.refl _
  | cons x t ih => exact (insertLe_perm le x (isort le t)).trans (ih.cons x)

lemma isort_mem {α : Type} (le : α → α → Bool) (l : List α) (x : α) :
    x ∈ isort le l ↔ x ∈ l := (isort_perm le l).mem_iff

lemma insertLe_sorted {α : Type} (le : α → α → Bool)
    (htr : ∀ a b c, le a b = true → le b c = true → le a c = true)
    (htot : ∀ a b, le a b = true ∨ le b a = true) (x : α) (l : List α)
    (hl : l.Pairwise (fun a b => le a b = true)) :
    (insertLe le x l).Pairwise (fun a b => le a b = true) := by
  induction l with
  | nil => simp [insertLe]
  | cons y t ih =>
    rcases List.pairwise_cons.mp hl with ⟨hy, ht⟩
    simp only [insertLe]
    by_cases h : le x y
    · simp only [if_pos h]
      refine List.pairwise_cons.mpr ⟨?_, hl⟩
      intro b hb
      rcases List.mem_cons.mp hb with rfl | hb'
      · exact h
      · exact htr x y b h (hy b hb')
    · simp only [if_neg h]
      refine List.pairwise_cons.mpr ⟨?_, ih ht⟩
      intro b hb
      have hb2 : b ∈ x :: t := (insertLe_perm le x t).mem_iff.mp hb
      rcases List.mem_cons.mp hb2 with hbx | hb'
      · rcases htot b y with h' | h'
        · exact absurd (hbx ▸ h') h
        · exact h'
      · exact hy b hb'

lemma isort_sorted {α : Type} (le : α → α → Bool)
    (htr : ∀ a b c, le a b = true → le b c = true → le a c = true)
    (htot : ∀ a b, le a b = true ∨ le b a = true) (l : List α) :
    (isort le l).Pairwise (fun a b => le a b = true) := by
  induction l with
  | nil => simp [isort]
  | cons x t ih => exact insertLe_sorted le htr htot x (isort le t) ih

lemma dtLeb_trans (a b c : DateTime) (h1 : dtLeb a b = true)
    (h2 : dtLeb b c = true) : dtLeb a c = true := by
  simp only [dtLeb, decide_eq_true_eq] at h1 h2 ⊢
  omega

lemma dtLeb_total (a b : DateTime) : dtLeb a b = true ∨ dtLeb b a = true := by
  simp only [dtLeb, decide_eq_true_eq]
  omega

lemma char_toNat_inj {a b : Char} (h : a.toNat = b.toNat) : a = b :=
  Char.ext (UInt32.toNat.inj h)

lemma strLtb_asymm (x : List Char) :
    ∀ y, strLtb x y = true → strLtb y x = false := by
  induction x with
  | nil =>
    intro y h
    cases y with
    | nil => simp [strLtb] at h
    | cons b bs => simp [strLtb]
  | cons a as ih =>
    intro y h
    cases y with
    | nil => simp [strLtb] at h
    | cons b bs =>
      simp only [strLtb] at h ⊢
      by_cases hab : a.toNat < b.toNat
      · rw [if_neg (by omega), if_neg (by omega)]
      · by_cases heq : a.toNat = b.toNat
        · rw [if_neg hab, if_pos heq] at h
          rw [if_neg (by omega), if_pos (by omega)]
          exact ih bs h
        · rw [if_neg hab, if_neg heq] at h
          cases h

lemma strLtb_trans (x : List Char) :
    ∀ y z, strLtb x y = true → strLtb y z = true → strLtb x z = true := by
  induction x with
  | nil =>
    intro y z h1 h2
    cases z with
    | nil =>
      cases y with
      | nil => exact h1
      | cons b bs => simp [strLtb] at h2
    | cons c cs => simp [strLtb]
  | cons a as ih =>
    intro y z h1 h2
    cases y with
    | nil => simp [strLtb] at h1
    | cons b bs =>
      cases z with
      | nil => simp [strLtb] at h2
      | cons c cs =>
        simp only [strLtb] at h1 h2 ⊢
        by_cases hab : a.toNat < b.toNat
        · by_cases hbc : b.toNat < c.toNat
          · rw [if_pos (by omega)]
          · by_cases hbc2 : b.toNat = c.toNat
            · rw [if_pos (by omega)]
            · rw [if_neg hbc, if_neg hbc2] at h2
              cases h2
        · by_cases hab2 : a.toNat = b.toNat
          · rw [if_neg hab, if_pos hab2] at h1
            by_cases hbc : b.toNat < c.toNat
            · rw [if_pos (by omega)]
            · by_cases hbc2 : b.toNat = c.toNat
              · rw [if_neg hbc, if_pos hbc2] at h2
                rw [if_neg (by omega), if_pos (by omega)]
                exact ih bs cs h1 h2
              · rw [if_neg hbc, if_neg hbc2] at h2
                cases h2
          · rw [if_neg hab, if_neg hab2] at h1
            cases h1

lemma strLtb_eq_of_not (x : List Char) :
    ∀ y, strLtb x y = false → strLtb y x = false → x = y := by
  induction x with
  | nil =>
    intro y h1 _
    cases y with
    | nil => rfl
    | cons b bs => simp [strLtb] at h1
  | cons a as ih =>
    intro y h1 h2
    cases y with
    | nil => simp [strLtb] at h2
    | cons b bs =>
      simp only [strLtb] at h1 h2
      by_cases hab : a.toNat < b.toNat
      · rw [if_pos hab] at h1
        cases h1
      · by_cases hba : b.toNat < a.toNat
        · rw [if_pos hba] at h2
          cases h2
        · have heq : a.toNat = b.toNat := by omega
          rw [if_neg hab, if_pos heq] at h1
          rw [if_neg hba, if_pos (by omega)] at h2
          rw [char_toNat_inj heq, ih bs h1 h2]

lemma strLeb_trans (a b c : String) (h1 : strLeb a b = true)
    (h2 : strLeb b c = true) : strLeb a c = true := by
  simp only [strLeb, Bool.not_eq_true'] at h1 h2 ⊢
  by_cases hca : strLtb c.data a.data = true
  · by_cases hcb : strLtb c.data b.data = true
    · rw [hcb] at h2
      cases h2
    · by_cases hbc : strLtb b.data c.data = true
      · have hba := strLtb_trans _ _ _ hbc hca
        rw [hba] at h1
        cases h1
      · have heq : b.data = c.data :=
          strLtb_eq_of_not _ _ (by simpa using hbc) (by simpa using hcb)
        rw [← heq] at hca
        rw [hca] at h1
        cases h1
  · simpa using hca

lemma strLeb_total (a b : String) : strLeb a b = true ∨ strLeb b a = true := by
  simp only [strLeb, Bool.not_eq_true']
  by_cases h : strLtb b.data a.data = true
  · right
    exact strLtb_asymm _ _ h
  · left
    simpa using h

lemma leCount_trans (a b c : String × Nat) (h1 : leCount a b = true)
    (h2 : leCount b c = true) : leCount a c = true := by
  simp only [leCount, decide_eq_true_eq] at h1 h2 ⊢
  omega

lemma leCount_total (a b : String × Nat) :
    leCount a b = true ∨ leCount b a = true := by
  simp only [leCount, decide_eq_true_eq]
  omega

lemma sum_map_add {β : Type} (l : List β) (g h : β → Nat) :
    (l.map (fun k => g k + h k)).sum = (l.map g).sum + (l.map h).sum := by
  induction l with
  | nil => simp
  | cons a t ih =>
    simp only [List.map_cons, List.sum_cons, ih]
    omega

lemma sum_indicator_zero {β : Type} [DecidableEq β] (keys : List β) (b : β)
    (hb : b ∉ keys) :
    (keys.map (fun k => if b = k then 1 else 0)).sum = 0 := by
  induction keys with
  | nil => simp
  | cons k t ih =>
    have hbk : ¬ b = k := fun h => hb (h ▸ List.mem_cons_self k t)
    have ht := ih (fun h => hb (List.mem_cons_of_mem _ h))
    simp [hbk, ht]

lemma sum_indicator_one {β : Type} [DecidableEq β] (keys : List β) (b : β)
    (hnd : keys.Nodup) (hb : b ∈ keys) :
    (keys.map (fun k => if b = k then 1 else 0)).sum = 1 := by
  induction keys with
  | nil => cases hb
  | cons k t ih =>
    rcases List.mem_cons.mp hb with rfl | hbt
    · have hk : b ∉ t := (List.nodup_cons.mp hnd).1
      simp [sum_indicator_zero t b hk]
    · have hk : ¬ b = k := by
        rintro rfl
        exact (List.nodup_cons.mp hnd).1 hbt
      simp [hk, ih (List.nodup_cons.mp hnd).2 hbt]

lemma countP_partition {α β : Type} [DecidableEq β] (l : List α) (keys : List β)
    (f : α → β) (hnd : keys.Nodup) (hc : ∀ a ∈ l, f a ∈ keys) :
    (keys.map (fun k => l.countP (fun a => decide (f a = k)))).sum = l.length := by
  induction l with
  | nil => simp
  | cons a t ih =>
    have ha : f a ∈ keys := hc a (List.mem_cons_self a t)
    have hmem : ∀ b ∈ t, f b ∈ keys := fun b hb => hc b (List.mem_cons_of_mem _ hb)
    simp only [List.countP_cons, decide_eq_true_eq]
    rw [sum_map_add, ih hmem, sum_indicator_one keys (f a) hnd ha,
      List.length_cons]

lemma length_filterMap_add {α β : Type} (f : α → Option β) (l : List α) :
    (l.filterMap f).length + l.countP (fun a => (f a).isNone) = l.length := by
  induction l with
  | nil => simp
  | cons a t ih =>
    cases hfa : f a with
    | none =>
      have h1 : List.filterMap f (a :: t) = List.filterMap f t := by
        simp [List.filterMap_cons, hfa]
      have h2 : List.countP (fun a => (f a).isNone) (a :: t)
          = List.countP (fun a => (f a).isNone) t + 1 := by
        simp [List.countP_cons, hfa]
      rw [h1, h2, List.length_cons]
      omega
    | some b =>
      have h1 : List.filterMap f (a :: t) = b :: List.filterMap f t := by
        simp [List.filterMap_cons, hfa]
      have h2 : List.countP (fun a => (f a).isNone) (a :: t)
          = List.countP (fun a => (f a).isNone) t := by
        simp [List.countP_cons, hfa]
      rw [h1, h2, List.length_cons, List.length_cons]
      omega

lemma getD_zipWith_add (a v : List Nat) (j : Nat) (h : a.length = v.length) :
    (List.zipWith (· + ·) a v).getD j 0 = a.getD j 0 + v.getD j 0 := by
  induction a generalizing v j with
  | nil =>
    cases v with
    | nil => simp
    | cons w ws => simp at h
  | cons x xs ih =>
    cases v with
    | nil => simp at h
    | cons w ws =>
      cases j with
      | zero => simp
      | succ jj =>
        simp only [List.zipWith_cons_cons, List.getD_cons_succ]
        exact ih ws jj (by simpa using h)

lemma filter_insertLe_count (x : String × Nat) (l : List (String × Nat)) (c : Nat) :
    (insertLe leCount x l).filter (fun q => decide (q.2 = c)) =
      if x.2 = c then x :: l.filter (fun q => decide (q.2 = c))
      else l.filter (fun q => decide (q.2 = c)) := by
  induction l with
  | nil => by_cases hx : x.2 = c <;> simp [insertLe, hx]
  | cons y t ih =>
    simp only [insertLe]
    by_cases h : leCount x y
    · simp only [if_pos h]
      by_cases hx : x.2 = c <;> simp [List.filter_cons, hx]
    · simp only [if_neg h]
      have hxy : x.2 < y.2 := by
        simp only [leCount, decide_eq_true_eq, Bool.not_eq_true] at h
        omega
      by_cases hyc : y.2 = c
      · have hxc : ¬ x.2 = c := by omega
        simp [List.filter_cons, hyc, hxc, ih]
      · by_cases hxc : x.2 = c <;> simp [List.filter_cons, hyc, hxc, ih]

lemma isort_filter_count (l : List (String × Nat)) (c : Nat) :
    (isort leCount l).filter (fun q => decide (q.2 = c)) =
      l.filter (fun q => decide (q.2 = c)) := by
  induction l with
  | nil => rfl
  | cons x t ih =>
    simp only [isort]
    rw [filter_insertLe_count]
    by_cases hx : x.2 = c <;> simp [List.filter_cons, hx, ih]

lemma cumsumFrom_getD (t : List (DateTime × List Nat)) :
    ∀ (acc : List Nat) (k j : Nat), k < t.length →
    (∀ row ∈ t, row.2.length = acc.length) →
    ((cumsumFrom acc t).getD k (⟨0, 0, 0, 0, 0, 0⟩, [])).2.getD j 0 =
      acc.getD j 0 + ((t.take (k + 1)).map (fun row => row.2.getD j 0)).sum := by
  induction t with
  | nil =>
    intro acc k j hk
    exact absurd hk (by simp)
  | cons p rest ih =>
    intro acc k j hk hlen
    obtain ⟨m, v⟩ := p
    have hlv : acc.length = v.length :=
      (hlen (m, v) (List.mem_cons_self _ _)).symm
    cases k with
    | zero =>
      simp only [cumsumFrom, List.getD_cons_zero, List.take_succ_cons,
        List.take_zero, List.map_cons, List.map_nil, List.sum_cons,
        List.sum_nil]
      rw [getD_zipWith_add acc v j hlv]
      omega
    | succ kk =>
      simp only [cumsumFrom, List.getD_cons_succ, List.take_succ_cons,
        List.map_cons, List.sum_cons]
      have hlen' : ∀ row ∈ rest, row.2.length = (List.zipWith (· + ·) acc v).length := by
        intro row hrow
        rw [List.length_zipWith, ← hlv, Nat.min_self]
        exact hlen row (List.mem_cons_of_mem _ hrow)
      rw [ih (List.zipWith (· + ·) acc v) kk j (by simpa using hk) hlen',
        getD_zipWith_add acc v j hlv]
      omega

lemma mkRecord_eq {keep : Nat} {row : List (Option String)} {r : Record}
    (h : mkRecord keep row = some r) :
    ∃ ts, parse_ts_cell ((row.take keep).headD none) = some ts ∧
      r = ⟨ts, floorMinute ts, row.take keep⟩ := by
  unfold mkRecord at h
  cases hp : parse_ts_cell ((row.take keep).headD none) with
  | none => rw [hp] at h; exact absurd h (by simp)
  | some ts => rw [hp] at h; exact ⟨ts, rfl, (Option.some_inj.mp h).symm⟩

lemma read_csv_eq {rows : List (List String)} {rf : RawFrame}
    (h : read_csv rows = some rf) :
    ∃ r0 rest, rows = r0 :: rest ∧
      rf = ⟨r0.length, rows.map (padCells r0.length)⟩ ∧ 1 ≤ r0.length ∧
      ∀ r ∈ rows, r.length ≤ r0.length := by
  cases rows with
  | nil => exact absurd h (by simp [read_csv])
  | cons r0 rest =>
    simp only [read_csv] at h
    by_cases hc : 1 ≤ r0.length ∧
        ((r0 :: rest).all fun r => decide (r.length ≤ r0.length)) = true
    · rw [if_pos hc] at h
      refine ⟨r0, rest, rfl, (Option.some_inj.mp h).symm, hc.1, ?_⟩
      intro r hr
      have := List.all_eq_true.mp hc.2 r hr
      exact decide_eq_true_eq.mp this
    · rw [if_neg hc] at h
      cases h

lemma padCells_length {w : Nat} {r : List String} (h : r.length ≤ w) :
    (padCells w r).length = w := by
  simp only [padCells, List.length_append, List.length_map,
    List.length_replicate]
  omega

lemma read_csv_rows_length {rows : List (List String)} {rf : RawFrame}
    (h : read_csv rows = some rf) :
    ∀ row ∈ rf.rows, row.length = rf.width := by
  obtain ⟨r0, rest, rfl, hrf, h1, hle⟩ := read_csv_eq h
  subst hrf
  intro row hrow
  simp only [List.mem_map] at hrow
  obtain ⟨raw, hraw, rfl⟩ := hrow
  exact padCells_length (hle raw hraw)

lemma headD_take {α : Type} (row : List α) (keep : Nat) (d : α) (hk : 1 ≤ keep) :
    (row.take keep).headD d = row.headD d := by
  cases row with
  | nil => simp
  | cons a t =>
    cases keep with
    | zero => omega
    | succ kk => simp

lemma foldr_max_le {l : List Nat} {w : Nat} (h : ∀ x ∈ l, x ≤ w) :
    l.foldr max 0 ≤ w := by
  induction l with
  | nil => simp
  | cons a t ih =>
    have ha : a ≤ w := h a (List.mem_cons_self a t)
    have ht := ih (fun x hx => h x (List.mem_cons_of_mem _ hx))
    simp only [List.foldr_cons]
    omega

lemma parse_file_full {rows : List (List String)} {rf : RawFrame}
    (hr : read_csv rows = some rf) (hw : 13 ≤ rf.width) :
    parse_file rows = some ⟨fullCols, rf.rows.filterMap (mkRecord 13)⟩ := by
  simp only [parse_file, hr, if_pos hw]

lemma parse_file_basic {rows : List (List String)} {rf : RawFrame}
    (hr : read_csv rows = some rf) (hw : ¬ 13 ≤ rf.width) :
    parse_file rows = some ⟨basicCols.take (min rf.width 7),
      rf.rows.filterMap (mkRecord (min rf.width 7))⟩ := by
  simp only [parse_file, hr, if_neg hw]

/-- C2 counterexample: in a file whose widest row has 3 fields, the row with
only 1 field does NOT get `min(1,7) = 1` named field with the rest absent;
it is padded to the 3 global Basic-layout names with `NaN` (null) cells.  So
the claim, which asserts per-row truncation to `min(n,7)` names with the
remaining names absent rather than null-filled, is false on the code. -/
theorem C2_counterexample :
    (c2rows.getD 1 []).length = 1 ∧
    (parse_file c2rows).map (fun ds => ds.rows.map (fun r => r.cells)) =
      some [[some "2024-01-01 10:00:00", some "b", some "c"],
            [some "2024-01-02 11:00:00", none, none]] ∧
    (parse_file c2rows).map (fun ds => ds.rows.map (fun r => r.cells.length)) =
      some [3, 3] ∧
    (parse_file c2rows).map Dataset.columns =
      some ["Timestamp", "Code", "Status"] ∧
    min (c2rows.getD 1 []).length 7 ≠ 3 := by
  decide

lemma basicShape (rows : List (List String)) (rf : RawFrame) (ds : Dataset)
    (hr : read_csv rows = some rf) (hw : rf.width < 13)
    (hp : parse_file rows = some ds) :
    ds.columns = basicCols.take (min rf.width 7) ∧
    (∀ r ∈ ds.rows, r.cells.length = min rf.width 7) ∧
    (∀ r ∈ ds.rows, ∃ raw ∈ rows,
      r.cells = (padCells rf.width raw).take (min rf.width 7)) := by
  rw [parse_file_basic hr (by omega)] at hp
  obtain rfl := (Option.some_inj.mp hp).symm
  refine ⟨rfl, ?_, ?_⟩
  · intro r hr2
    obtain ⟨row, hrow, hmk⟩ := List.mem_filterMap.mp hr2
    obtain ⟨ts, hts, rfl⟩ := mkRecord_eq hmk
    have hlen : row.length = rf.width := read_csv_rows_length hr row hrow
    simp only [List.length_take, hlen]
    omega
  · intro r hr2
    obtain ⟨row, hrow, hmk⟩ := List.mem_filterMap.mp hr2
    obtain ⟨ts, hts, rfl⟩ := mkRecord_eq hmk
    obtain ⟨r0, rest, rfl, hrf, h1, hle⟩ := read_csv_eq hr
    subst hrf
    simp only [List.mem_map] at hrow
    obtain ⟨raw, hraw, rfl⟩ := hrow
    exact ⟨raw, hraw, rfl⟩

/-- C2 (amended): the Basic-layout truncation is governed by the global
column count `w` of the parse (the maximum field count), not by each row's own
field count: when `w < 13`, every Log Record carries exactly `min(w,7)`
Basic-layout names, in the fixed name order, and a row shorter than that is
null-filled (its cells are the `NaN`-padded raw fields truncated to
`min(w,7)`), not left with absent fields. -/
theorem C2_basic_layout_global_width (rows : List (List String)) (rf : RawFrame)
    (ds : Dataset) (hr : read_csv rows = some rf) (hw : rf.width < 13)
    (hp : parse_file rows = some ds) :
    ds.columns = basicCols.take (min rf.width 7) ∧
    (∀ r ∈ ds.rows, r.cells.length = min rf.width 7) ∧
    (∀ r ∈ ds.rows, ∃ raw ∈ rows,
      r.cells = (padCells rf.width raw).take (min rf.width 7)) :=
  basicShape rows rf ds hr hw hp

/-- C3: the layout-selecting column count is measured once per parse, as the
maximum field count across the whole parsed table (the raw parser pads
shorter rows and rejects rows wider than the first, so the width equals that
maximum); when it is >= 13 every record gets the 13 Full-layout names with
cells drawn from its first 13 (padded) raw fields — in particular a row with
>= 13 raw fields contributes exactly its first 13 fields, any beyond ignored —
and otherwise every record gets the Basic layout truncated to
`min(count, 7)` names. -/
theorem C3_global_column_count (rows : List (List String)) (rf : RawFrame)
    (ds : Dataset) (hr : read_csv rows = some rf)
    (hp : parse_file rows = some ds) :
    rf.width = (rows.map List.length).foldr max 0 ∧
    (13 ≤ rf.width →
      ds.columns = fullCols ∧
      ∀ r ∈ ds.rows, ∃ raw ∈ rows,
        r.cells = (padCells rf.width raw).take 13 ∧
        (13 ≤ raw.length → r.cells = (raw.take 13).map cellOf)) ∧
    (rf.width < 13 →
      ds.columns = basicCols.take (min rf.width 7) ∧
      ∀ r ∈ ds.rows, r.cells.length = min rf.width 7) := by
  obtain ⟨r0, rest, rfl, hrf, h1, hle⟩ := read_csv_eq hr
  subst hrf
  refine ⟨?_, ?_, ?_⟩
  · simp only [List.map_cons, List.foldr_cons]
    have : (rest.map List.length).foldr max 0 ≤ r0.length :=
      foldr_max_le (by
        intro x hx
        obtain ⟨raw, hraw, rfl⟩ := List.mem_map.mp hx
        exact hle raw (List.mem_cons_of_mem _ hraw))
    omega
  · intro hw
    rw [parse_file_full hr hw] at hp
    obtain rfl := (Option.some_inj.mp hp).symm
    refine ⟨rfl, ?_⟩
    intro r hr2
    obtain ⟨row, hrow, hmk⟩ := List.mem_filterMap.mp hr2
    obtain ⟨ts, hts, rfl⟩ := mkRecord_eq hmk
    simp only [List.mem_map] at hrow
    obtain ⟨raw, hraw, rfl⟩ := hrow
    refine ⟨raw, hraw, rfl, ?_⟩
    intro h13
    show (padCells r0.length raw).take 13 = (raw.take 13).map cellOf
    rw [padCells, List.take_append_of_le_length (by
      simp only [List.length_map]
      omega), List.map_take]
  · intro hw
    have h := basicShape _ _ ds hr hw hp
    exact ⟨h.1, h.2.1⟩

lemma mkRecord_isNone (keep : Nat) (row : List (Option String))
    (hk : 1 ≤ keep) :
    (mkRecord keep row).isNone = (parse_ts_cell (row.headD none)).isNone := by
  unfold mkRecord
  rw [headD_take row keep none hk]
  cases parse_ts_cell (row.headD none) <;> simp

lemma parse_file_rows {rows : List (List String)} {rf : RawFrame} {ds : Dataset}
    (hr : read_csv rows = some rf) (hp : parse_file rows = some ds) :
    ∃ keep, 1 ≤ keep ∧
      ds.rows = rows.filterMap (fun raw => mkRecord keep (padCells rf.width raw)) := by
  have h1 : 1 ≤ rf.width := by
    obtain ⟨r0, rest, rfl, hrf, h1, hle⟩ := read_csv_eq hr
    subst hrf
    exact h1
  have hrfrows : rf.rows = rows.map (padCells rf.width) := by
    obtain ⟨r0, rest, rfl, hrf, h1, hle⟩ := read_csv_eq hr
    subst hrf
    rfl
  by_cases hw : 13 ≤ rf.width
  · rw [parse_file_full hr hw] at hp
    obtain rfl := (Option.some_inj.mp hp).symm
    refine ⟨13, by omega, ?_⟩
    show rf.rows.filterMap (mkRecord 13) = _
    rw [hrfrows, List.filterMap_map]
    rfl
  · rw [parse_file_basic hr hw] at hp
    obtain rfl := (Option.some_inj.mp hp).symm
    refine ⟨min rf.width 7, by omega, ?_⟩
    show rf.rows.filterMap (mkRecord (min rf.width 7)) = _
    rw [hrfrows, List.filterMap_map]
    rfl

/-- C4: the Timestamp Normalizer signals failure with the missing-value
sentinel (an `Option` that is `none`), never an exception; every input row
whose Timestamp cell fails all parse strategies is absent from the loaded
Dataset: the Dataset's row count equals the input row count minus the number
of unparseable rows, and every record that is present comes from a row whose
Timestamp cell normalized successfully. -/
theorem C4_unparseable_rows_dropped (rows : List (List String)) (rf : RawFrame)
    (ds : Dataset) (hr : read_csv rows = some rf)
    (hp : parse_file rows = some ds) :
    ds.rows.length =
      rows.length -
        rows.countP (fun raw => (parse_ts_cell (tsCellOf rf.width raw)).isNone) ∧
    ds.rows.length +
      rows.countP (fun raw => (parse_ts_cell (tsCellOf rf.width raw)).isNone) =
      rows.length ∧
    ∀ rec ∈ ds.rows, ∃ raw ∈ rows,
      parse_ts_cell (tsCellOf rf.width raw) = some rec.timestamp := by
  obtain ⟨keep, hk, hrows⟩ := parse_file_rows hr hp
  have hcnt :
      rows.countP (fun raw => (mkRecord keep (padCells rf.width raw)).isNone) =
      rows.countP (fun raw => (parse_ts_cell (tsCellOf rf.width raw)).isNone) := by
    refine List.countP_congr ?_
    intro raw _
    rw [mkRecord_isNone keep _ hk]
    rfl
  have hlen := length_filterMap_add
    (fun raw => mkRecord keep (padCells rf.width raw)) rows
  rw [hcnt] at hlen
  rw [hrows]
  refine ⟨by omega, hlen, ?_⟩
  intro rec hrec
  obtain ⟨raw, hraw, hmk⟩ := List.mem_filterMap.mp hrec
  obtain ⟨ts, hts, rfl⟩ := mkRecord_eq hmk
  refine ⟨raw, hraw, ?_⟩
  rw [tsCellOf, ← headD_take (padCells rf.width raw) keep none hk]
  exact hts

/-- C5: the per-minute total aggregate is keyed by exactly the distinct
Minute values present in the dataset being aggregated (no duplicates, no
synthetic keys), in ascending order, and the sum of its per-bucket counts
equals the dataset's total row count. -/
theorem C5_per_minute_total (ds : Dataset) :
    ((count_per_minute ds).map Prod.fst).Nodup ∧
    (∀ m, m ∈ (count_per_minute ds).map Prod.fst ↔ m ∈ ds.rows.map (·.minute)) ∧
    ((count_per_minute ds).map Prod.fst).Pairwise
      (fun a b => a.key ≤ b.key) ∧
    ((count_per_minute ds).map Prod.snd).sum = ds.rows.length := by
  have hkeys : (count_per_minute ds).map Prod.fst =
      isort dtLeb (firstOccs (ds.rows.map (·.minute))) := by
    simp only [count_per_minute, List.map_map, Function.comp_def, List.map_id']
  have hnd : (isort dtLeb (firstOccs (ds.rows.map (·.minute)))).Nodup :=
    ((isort_perm dtLeb _).nodup_iff).mpr (firstOccs_nodup _)
  refine ⟨hkeys ▸ hnd, ?_, ?_, ?_⟩
  · intro m
    rw [hkeys, isort_mem, firstOccs_mem]
  · rw [hkeys]
    have := isort_sorted dtLeb dtLeb_trans dtLeb_total
      (firstOccs (ds.rows.map (·.minute)))
    exact this.imp (fun hab => by
      simpa only [dtLeb, decide_eq_true_eq] using hab)
  · have hsnd : (count_per_minute ds).map Prod.snd =
        (isort dtLeb (firstOccs (ds.rows.map (·.minute)))).map
          (fun m => ds.rows.countP (fun r => decide (r.minute = m))) := by
      rw [count_per_minute, List.map_map]
      rfl
    rw [hsnd]
    refine countP_partition ds.rows _ (·.minute) hnd ?_
    intro r hrmem
    rw [isort_mem, firstOccs_mem]
    exact List.mem_map_of_mem _ hrmem

lemma minTsAux_le (l : List Record) :
    ∀ acc : DateTime, (minTsAux acc l).key ≤ acc.key ∧
      ∀ r ∈ l, (minTsAux acc l).key ≤ r.timestamp.key := by
  induction l with
  | nil =>
    intro acc
    exact ⟨le_refl _, by simp⟩
  | cons r rs ih =>
    intro acc
    simp only [minTsAux]
    obtain ⟨ih1, ih2⟩ := ih (if dtLeb r.timestamp acc then r.timestamp else acc)
    have hle : (if dtLeb r.timestamp acc then r.timestamp else acc).key ≤ acc.key ∧
        (if dtLeb r.timestamp acc then r.timestamp else acc).key ≤
          r.timestamp.key := by
      by_cases hc : dtLeb r.timestamp acc = true
      · simp only [if_pos hc]
        simp only [dtLeb, decide_eq_true_eq] at hc
        omega
      · simp only [if_neg hc]
        simp only [dtLeb, decide_eq_true_eq] at hc
        omega
    refine ⟨le_trans ih1 hle.1, ?_⟩
    intro x hx
    rcases List.mem_cons.mp hx with hxr | hx'
    · rw [hxr]
      exact le_trans ih1 hle.2
    · exact ih2 x hx'

lemma maxTsAux_ge (l : List Record) :
    ∀ acc : DateTime, acc.key ≤ (maxTsAux acc l).key ∧
      ∀ r ∈ l, r.timestamp.key ≤ (maxTsAux acc l).key := by
  induction l with
  | nil =>
    intro acc
    exact ⟨le_refl _, by simp⟩
  | cons r rs ih =>
    intro acc
    simp only [maxTsAux]
    obtain ⟨ih1, ih2⟩ := ih (if dtLeb acc r.timestamp then r.timestamp else acc)
    have hle : acc.key ≤ (if dtLeb acc r.timestamp then r.timestamp else acc).key ∧
        r.timestamp.key ≤
          (if dtLeb acc r.timestamp then r.timestamp else acc).key := by
      by_cases hc : dtLeb acc r.timestamp = true
      · simp only [if_pos hc]
        simp only [dtLeb, decide_eq_true_eq] at hc
        omega
      · simp only [if_neg hc]
        simp only [dtLeb, decide_eq_true_eq] at hc
        omega
    refine ⟨le_trans hle.1 ih1, ?_⟩
    intro x hx
    rcases List.mem_cons.mp hx with hxr | hx'
    · rw [hxr]
      exact le_trans hle.2 ih1
    · exact ih2 x hx'

lemma minTs_le (ds : Dataset) (r : Record) (hr : r ∈ ds.rows) :
    (minTs ds).key ≤ r.timestamp.key := by
  cases hds : ds.rows with
  | nil => rw [hds] at hr; cases hr
  | cons r0 rs =>
    rw [hds] at hr
    unfold minTs
    rw [hds]
    rcases List.mem_cons.mp hr with hr0 | hr'
    · rw [hr0]
      exact (minTsAux_le rs r0.timestamp).1
    · exact (minTsAux_le rs r0.timestamp).2 r hr'

lemma maxTs_ge (ds : Dataset) (r : Record) (hr : r ∈ ds.rows) :
    r.timestamp.key ≤ (maxTs ds).key := by
  cases hds : ds.rows with
  | nil => rw [hds] at hr; cases hr
  | cons r0 rs =>
    rw [hds] at hr
    unfold maxTs
    rw [hds]
    rcases List.mem_cons.mp hr with hr0 | hr'
    · rw [hr0]
      exact (maxTsAux_ge rs r0.timestamp).1
    · exact (maxTsAux_ge rs r0.timestamp).2 r hr'

/-- C6: the Time-Range Filter returns exactly the records with
start <= Timestamp <= end (inclusive bounds), as a subsequence of the
dataset — original relative order preserved — and filtering with bounds
equal to the minimum and maximum Timestamp of a nonempty dataset returns the
dataset unchanged (hence equal as a multiset of records). -/
theorem C6_time_filter (ds : Dataset) (a b : DateTime) :
    (timeFilter ds a b).rows.Sublist ds.rows ∧
    (∀ r, r ∈ (timeFilter ds a b).rows ↔
      r ∈ ds.rows ∧ a.key ≤ r.timestamp.key ∧ r.timestamp.key ≤ b.key) ∧
    (ds.rows ≠ [] → timeFilter ds (minTs ds) (maxTs ds) = ds) := by
  refine ⟨List.filter_sublist _, ?_, ?_⟩
  · intro r
    simp [timeFilter, List.mem_filter, dtLeb]
  · intro _
    have hall : ∀ r ∈ ds.rows,
        (dtLeb (minTs ds) r.timestamp && dtLeb r.timestamp (maxTs ds)) = true := by
      intro r hrmem
      simp only [dtLeb, Bool.and_eq_true, decide_eq_true_eq]
      exact ⟨minTs_le ds r hrmem, maxTs_ge ds r hrmem⟩
    cases ds with
    | mk cols rws =>
      simp only [timeFilter]
      rw [List.filter_eq_self.mpr hall]

/-- C7: the subsystem-totals ranking is descending by count with ties kept in
original first-occurrence order (the stable sort leaves each equal-count class
exactly as it appears in the unsorted counts), and for N1 < N2 the Top-N1
subsystem list is a subset of the Top-N2 list, both being prefixes of the
full descending stable ordering. -/
theorem C7_topn_ranking (ds : Dataset) (n1 n2 : Nat) (h : n1 < n2) :
    (value_counts ds).Pairwise (fun p q => q.2 ≤ p.2) ∧
    (∀ c, (value_counts ds).filter (fun q => decide (q.2 = c)) =
      (basePairs ds).filter (fun q => decide (q.2 = c))) ∧
    topList ds n1 = ((value_counts ds).map Prod.fst).take n1 ∧
    topList ds n2 = ((value_counts ds).map Prod.fst).take n2 ∧
    (∀ s, s ∈ topList ds n1 → s ∈ topList ds n2) := by
  refine ⟨?_, ?_, ?_, ?_, ?_⟩
  · have := isort_sorted leCount leCount_trans leCount_total (basePairs ds)
    exact this.imp (fun hab => by
      simpa only [leCount, decide_eq_true_eq] using hab)
  · intro c
    exact isort_filter_count (basePairs ds) c
  · rw [topList, List.map_take]
  · rw [topList, List.map_take]
  · intro s hs
    rw [topList] at hs ⊢
    have ht : (value_counts ds).take n1 = ((value_counts ds).take n2).take n1 := by
      rw [List.take_take, Nat.min_eq_left (by omega)]
    rw [ht] at hs
    obtain ⟨p, hp, rfl⟩ := List.mem_map.mp hs
    exact List.mem_map.mpr ⟨p, List.take_subset _ _ hp, rfl⟩

lemma getD_replicate_zero (n j : Nat) : (List.replicate n (0 : Nat)).getD j 0 = 0 := by
  induction n generalizing j with
  | zero => simp
  | succ nn ih =>
    cases j with
    | zero => simp [List.replicate_succ]
    | succ jj => simp [List.replicate_succ, ih]

lemma spm_row_lengths (ds : Dataset) :
    ∀ row ∈ spmOf ds, row.2.length = (subTable ds).length := by
  intro row hrow
  obtain ⟨m, hm, rfl⟩ := List.mem_map.mp hrow
  simp

lemma spm_column_sum (ds : Dataset) (j : Nat) (hj : j < (subTable ds).length) :
    ((spmOf ds).map (fun row => row.2.getD j 0)).sum =
      ds.rows.countP (fun r =>
        decide (r.sub = some ((subTable ds).getD j ""))) := by
  have hcell : ∀ m : DateTime,
      (((subTable ds).map (fun s' => ds.rows.countP
        (fun r => decide (r.minute = m ∧ r.sub = some s')))).getD j 0) =
      ds.rows.countP (fun r =>
        decide (r.minute = m ∧ r.sub = some ((subTable ds).getD j ""))) := by
    intro m
    rw [List.getD_eq_getElem _ _ (by simpa using hj), List.getElem_map,
      List.getD_eq_getElem _ _ hj]
  have hmap : (spmOf ds).map (fun row => row.2.getD j 0) =
      (minuteIdx ds).map (fun m => ds.rows.countP (fun r =>
        decide (r.minute = m ∧ r.sub = some ((subTable ds).getD j "")))) := by
    rw [spmOf, List.map_map]
    refine List.map_congr_left ?_
    intro m _
    exact hcell m
  have hsplit : ∀ m : DateTime,
      ds.rows.countP (fun r =>
        decide (r.minute = m ∧ r.sub = some ((subTable ds).getD j ""))) =
      (ds.rows.filter (fun r =>
        decide (r.sub = some ((subTable ds).getD j "")))).countP
        (fun r => decide (r.minute = m)) := by
    intro m
    rw [List.countP_filter]
    refine List.countP_congr ?_
    intro r _
    simp
  have hnodup : (minuteIdx ds).Nodup :=
    ((isort_perm dtLeb _).nodup_iff).mpr (firstOccs_nodup _)
  have hcomplete : ∀ r ∈ ds.rows.filter (fun r =>
      decide (r.sub = some ((subTable ds).getD j ""))),
      r.minute ∈ minuteIdx ds := by
    intro r hrmem
    obtain ⟨hrds, hrsub⟩ := List.mem_filter.mp hrmem
    rw [minuteIdx, isort_mem, firstOccs_mem]
    refine List.mem_map_of_mem _ ?_
    rw [List.mem_filter]
    refine ⟨hrds, ?_⟩
    rw [decide_eq_true_eq.mp hrsub]
    rfl
  rw [hmap, List.map_congr_left (fun m _ => hsplit m)]
  have hpart := countP_partition
    (ds.rows.filter (fun r => decide (r.sub = some ((subTable ds).getD j ""))))
    (minuteIdx ds) (·.minute) hnodup hcomplete
  exact hpart.trans (List.countP_eq_length_filter _ _).symm

/-- C8: in the cumulative trend table over the Top-N-restricted
per-minute-per-subsystem table, each subsystem column's value at position k
(ascending minute order) is the sum of that column's per-minute values for
positions 0..k, and the last value is that subsystem's total record count
over the Top-N-restricted data. -/
theorem C8_cumulative_trend (ds : Dataset) (n k j : Nat)
    (hk : k < (spmOf (topData ds n)).length)
    (hj : j < (subTable (topData ds n)).length) :
    ((cumulativeOf ds n).getD k (⟨0, 0, 0, 0, 0, 0⟩, [])).2.getD j 0 =
      (((spmOf (topData ds n)).take (k + 1)).map
        (fun row => row.2.getD j 0)).sum ∧
    (k = (spmOf (topData ds n)).length - 1 →
      ((cumulativeOf ds n).getD k (⟨0, 0, 0, 0, 0, 0⟩, [])).2.getD j 0 =
        (topData ds n).rows.countP (fun r =>
          decide (r.sub = some ((subTable (topData ds n)).getD j "")))) := by
  have hlen : ∀ row ∈ spmOf (topData ds n),
      row.2.length =
        (List.replicate (subTable (topData ds n)).length (0 : Nat)).length := by
    intro row hrow
    rw [List.length_replicate]
    exact spm_row_lengths _ row hrow
  have h1 := cumsumFrom_getD (spmOf (topData ds n))
    (List.replicate (subTable (topData ds n)).length 0) k j hk hlen
  rw [getD_replicate_zero, Nat.zero_add] at h1
  simp only [cumulativeOf]
  refine ⟨h1, ?_⟩
  intro hklast
  rw [h1]
  have htk : (spmOf (topData ds n)).take (k + 1) = spmOf (topData ds n) := by
    have hkeq : k + 1 = (spmOf (topData ds n)).length := by omega
    rw [hkeq, List.take_length]
  rw [htk]
  exact spm_column_sum (topData ds n) j hj

/-- C9: on the concrete three-row input, the pipeline produces per-minute
totals {10:00 -> 2, 10:01 -> 1}, the dense per-minute-per-subsystem table
{10:00: {SubA: 2, SubB: 0}, 10:01: {SubA: 0, SubB: 1}}, and summary rows
SubA: total 2, mean 1.0, peak (10:00, 2) and SubB: total 1, mean 0.5,
peak (10:01, 1) — the mean being averaged over all minutes present,
counting zero-occurrence minutes. -/
theorem C9_example_scenario :
    (parse_file c9rows).isSome = true ∧
    count_per_minute c9ds = [(c9m0, 2), (c9m1, 1)] ∧
    subTable c9ds = ["SubA", "SubB"] ∧
    minuteIdx c9ds = [c9m0, c9m1] ∧
    spmOf c9ds = [(c9m0, [2, 0]), (c9m1, [0, 1])] ∧
    totalOf c9ds "SubA" = 2 ∧ totalOf c9ds "SubB" = 1 ∧
    meanOf c9ds "SubA" = 1 ∧ meanOf c9ds "SubB" = 1 / 2 ∧
    peakOf c9ds "SubA" = (some c9m0, 2) ∧
    peakOf c9ds "SubB" = (some c9m1, 1) ∧
    summaryOf c9ds = [("SubA", 2, 1, (some c9m0, 2)),
                      ("SubB", 1, 1 / 2, (some c9m1, 1))] := by
  have hA : meanOf c9ds "SubA" = 1 := by
    have h1 : sumColumn c9ds "SubA" = 2 := by decide
    have h2 : (minuteIdx c9ds).length = 2 := by decide
    rw [meanOf, h1, h2]
    norm_num
  have hB : meanOf c9ds "SubB" = 1 / 2 := by
    have h1 : sumColumn c9ds "SubB" = 1 := by decide
    have h2 : (minuteIdx c9ds).length = 2 := by decide
    rw [meanOf, h1, h2]
    norm_num
  have hsum : summaryOf c9ds = [("SubA", 2, 1, (some c9m0, 2)),
      ("SubB", 1, 1 / 2, (some c9m1, 1))] := by
    have hst : subTable c9ds = ["SubA", "SubB"] := by decide
    rw [summaryOf, hst]
    simp only [List.map_cons, List.map_nil]
    have t1 : totalOf c9ds "SubA" = 2 := by decide
    have t2 : totalOf c9ds "SubB" = 1 := by decide
    have p1 : peakOf c9ds "SubA" = (some c9m0, 2) := by decide
    have p2 : peakOf c9ds "SubB" = (some c9m1, 1) := by decide
    rw [t1, t2, p1, p2, hA, hB]
  exact ⟨by decide, by decide, by decide, by decide, by decide, by decide,
    by decide, hA, hB, by decide, by decide, hsum⟩

/-- C10: for every dataset and subsystem s occurring in it, the total count
in the summary table (the value count of s over the Subsystem field) equals
the sum of s's column in the dense per-minute-per-subsystem table, and hence
equals the mean-per-minute of s multiplied by the number of distinct minutes
of that table: the two independently computed aggregates agree. -/
theorem C10_total_column_mean_consistent (ds : Dataset) (s : String)
    (h : ∃ r ∈ ds.rows, r.sub = some s) :
    totalOf ds s = sumColumn ds s ∧
    (totalOf ds s : ℚ) = meanOf ds s * ((minuteIdx ds).length : ℚ) := by
  have hsmem : s ∈ subTable ds := by
    obtain ⟨r, hrmem, hrsub⟩ := h
    rw [subTable, isort_mem, firstOccs_mem]
    exact List.mem_filterMap.mpr ⟨r, hrmem, hrsub⟩
  have hj : (subTable ds).indexOf s < (subTable ds).length :=
    List.indexOf_lt_length.mpr hsmem
  have hgd : (subTable ds).getD ((subTable ds).indexOf s) "" = s := by
    rw [List.getD_eq_getElem _ _ hj]
    exact List.getElem_indexOf hj
  have h1 : sumColumn ds s = totalOf ds s := by
    rw [sumColumn, spm_column_sum ds _ hj, hgd, totalOf]
  refine ⟨h1.symm, ?_⟩
  have hn : (minuteIdx ds).length ≠ 0 := by
    obtain ⟨r, hrmem, hrsub⟩ := h
    have hmem2 : r.minute ∈ minuteIdx ds := by
      rw [minuteIdx, isort_mem, firstOccs_mem]
      refine List.mem_map_of_mem _ (List.mem_filter.mpr ⟨hrmem, ?_⟩)
      rw [hrsub]
      rfl
    intro h0
    rw [List.length_eq_zero] at h0
    rw [h0] at hmem2
    cases hmem2
  have hq : ((minuteIdx ds).length : ℚ) ≠ 0 := Nat.cast_ne_zero.mpr hn
  rw [meanOf, h1, div_mul_cancel₀ _ hq]

/-- Witness for the amended C2 at the ragged two-row file. -/
theorem C2_basic_layout_global_width_witness :
    (read_csv c2rows = some c2rf ∧ c2rf.width < 13 ∧
      parse_file c2rows = some c2ds) ∧
    (c2ds.columns = basicCols.take (min c2rf.width 7) ∧
     (∀ r ∈ c2ds.rows, r.cells.length = min c2rf.width 7) ∧
     (∀ r ∈ c2ds.rows, ∃ raw ∈ c2rows,
       r.cells = (padCells c2rf.width raw).take (min c2rf.width 7))) :=
  ⟨⟨by decide, by decide, by decide⟩,
   C2_basic_layout_global_width c2rows c2rf c2ds (by decide) (by decide)
     (by decide)⟩

/-- Witness for C3 at the 14-field file. -/
theorem C3_global_column_count_witness :
    (read_csv c3rows = some c3rf ∧ parse_file c3rows = some c3ds) ∧
    (c3rf.width = (c3rows.map List.length).foldr max 0 ∧
     (13 ≤ c3rf.width →
       c3ds.columns = fullCols ∧
       ∀ r ∈ c3ds.rows, ∃ raw ∈ c3rows,
         r.cells = (padCells c3rf.width raw).take 13 ∧
         (13 ≤ raw.length → r.cells = (raw.take 13).map cellOf)) ∧
     (c3rf.width < 13 →
       c3ds.columns = basicCols.take (min c3rf.width 7) ∧
       ∀ r ∈ c3ds.rows, r.cells.length = min c3rf.width 7)) :=
  ⟨⟨by decide, by decide⟩,
   C3_global_column_count c3rows c3rf c3ds (by decide) (by decide)⟩

/-- Witness for C4 at the partially-unparseable file: one of two rows is
dropped. -/
theorem C4_unparseable_rows_dropped_witness :
    (read_csv c4rows = some c4rf ∧ parse_file c4rows = some c4ds) ∧
    (c4ds.rows.length =
      c4rows.length -
        c4rows.countP (fun raw =>
          (parse_ts_cell (tsCellOf c4rf.width raw)).isNone) ∧
     c4ds.rows.length +
       c4rows.countP (fun raw =>
         (parse_ts_cell (tsCellOf c4rf.width raw)).isNone) = c4rows.length ∧
     ∀ rec ∈ c4ds.rows, ∃ raw ∈ c4rows,
       parse_ts_cell (tsCellOf c4rf.width raw) = some rec.timestamp) :=
  ⟨⟨by decide, by decide⟩,
   C4_unparseable_rows_dropped c4rows c4rf c4ds (by decide) (by decide)⟩

/-- Witness for C6's filter identity at the example Dataset. -/
theorem C6_time_filter_witness :
    c9ds.rows ≠ [] ∧ timeFilter c9ds (minTs c9ds) (maxTs c9ds) = c9ds :=
  ⟨by decide, (C6_time_filter c9ds (minTs c9ds) (maxTs c9ds)).2.2 (by decide)⟩

/-- Witness for C7 at the example Dataset with N1 = 1 < N2 = 2. -/
theorem C7_topn_ranking_witness :
    (1 : Nat) < 2 ∧
    ((value_counts c9ds).Pairwise (fun p q => q.2 ≤ p.2) ∧
     (∀ c, (value_counts c9ds).filter (fun q => decide (q.2 = c)) =
       (basePairs c9ds).filter (fun q => decide (q.2 = c))) ∧
     topList c9ds 1 = ((value_counts c9ds).map Prod.fst).take 1 ∧
     topList c9ds 2 = ((value_counts c9ds).map Prod.fst).take 2 ∧
     (∀ s, s ∈ topList c9ds 1 → s ∈ topList c9ds 2)) :=
  ⟨by decide, C7_topn_ranking c9ds 1 2 (by decide)⟩

/-- Witness for C8 at the example Dataset, Top-2, last minute row, first
subsystem column. -/
theorem C8_cumulative_trend_witness :
    (1 < (spmOf (topData c9ds 2)).length ∧
     0 < (subTable (topData c9ds 2)).length) ∧
    (((cumulativeOf c9ds 2).getD 1 (⟨0, 0, 0, 0, 0, 0⟩, [])).2.getD 0 0 =
       (((spmOf (topData c9ds 2)).take 2).map
         (fun row => row.2.getD 0 0)).sum ∧
     (1 = (spmOf (topData c9ds 2)).length - 1 →
       ((cumulativeOf c9ds 2).getD 1 (⟨0, 0, 0, 0, 0, 0⟩, [])).2.getD 0 0 =
         (topData c9ds 2).rows.countP (fun r =>
           decide (r.sub = some ((subTable (topData c9ds 2)).getD 0 ""))))) :=
  ⟨⟨by decide, by decide⟩,
   C8_cumulative_trend c9ds 2 1 0 (by decide) (by decide)⟩

/-- Witness for C10 at the example Dataset and subsystem "SubA". -/
theorem C10_total_column_mean_consistent_witness :
    (∃ r ∈ c9ds.rows, r.sub = some "SubA") ∧
    (totalOf c9ds "SubA" = sumColumn c9ds "SubA" ∧
     (totalOf c9ds "SubA" : ℚ) =
       meanOf c9ds "SubA" * ((minuteIdx c9ds).length : ℚ)) :=
  ⟨by decide, C10_total_column_mean_consistent c9ds "SubA" (by decide)⟩
